import Mathlib

/-!
Shallow embedding of fio's clock subsystem (`gettime.c`) and of the
access-pattern generator interface (`lib/zipf.h`), with theorems checking the
specification's claims against it.

Conventions of the embedding:
* C integer types (`long`, `unsigned long`, `unsigned long long`) are modelled
  as `Int` / `Nat`.  All values reached by the theorems below stay far inside
  the 64-bit range, where the mathematical and the machine arithmetic agree,
  so no explicit `% 2^64` is inserted.
* C integer division on the values reached here is division of non-negative
  operands, where C's truncating division and Lean's `Int`/`Nat` division
  coincide.
* `double` arithmetic of the calibrator is modelled over `ℚ` (exact
  arithmetic); the one square root the source takes is kept symbolic: the
  calibrator's selection phase is parameterised by the value `S` that the
  source obtains as `sqrt(S_acc / (10 - 1.0))`, and theorems about it carry
  the characterisation `0 ≤ S ∧ S ^ 2 = S_acc / 9` as a hypothesis.
* Stateful code is explicit state passing: `fio_gettime` becomes a function
  from its inputs (the syscall outcomes and raw counter readings it would
  observe) and the module state (`last_tv`, `last_tv_valid`, `last_cycles`)
  to the returned timestamp and the new state; `assert(0)` becomes `none`.
-/

namespace Fio

/-- `struct timeval`: seconds and microseconds, both C `long`. -/
structure Timeval where
  tv_sec : Int
  tv_usec : Int
deriving DecidableEq, Repr

/-- `struct timespec`: seconds and nanoseconds. -/
structure Timespec where
  tv_sec : Int
  tv_nsec : Int
deriving DecidableEq, Repr

/-!  ## Time arithmetic (`utime_since`, `mtime_since`)  -/

/-- The shared prologue of `utime_since` and `mtime_since`: the raw
`(sec, usec)` deltas with the borrow normalisation
`if (sec > 0 && usec < 0) { sec--; usec += 1000000; }`. -/
def since_parts (s e : Timeval) : Int × Int :=
  if e.tv_sec - s.tv_sec > 0 ∧ e.tv_usec - s.tv_usec < 0 then
    (e.tv_sec - s.tv_sec - 1, e.tv_usec - s.tv_usec + 1000000)
  else
    (e.tv_sec - s.tv_sec, e.tv_usec - s.tv_usec)

/-- `utime_since` from `gettime.c`: elapsed microseconds from `s` to `e`,
with the borrow normalisation and the negative-delta guard of the source. -/
def utime_since (s e : Timeval) : Int :=
  if (since_parts s e).1 < 0 ∨ ((since_parts s e).1 = 0 ∧ (since_parts s e).2 < 0)
  then 0
  else (since_parts s e).1 * 1000000 + (since_parts s e).2

/-- `mtime_since` from `gettime.c`: elapsed milliseconds from `s` to `e`. -/
def mtime_since (s e : Timeval) : Int :=
  if (since_parts s e).1 < 0 ∨ ((since_parts s e).1 = 0 ∧ (since_parts s e).2 < 0)
  then 0
  else (since_parts s e).1 * 1000 + (since_parts s e).2 / 1000

/-- A `Timeval` with its microsecond field in the valid range `[0, 1000000)`. -/
def Timeval.valid (t : Timeval) : Prop :=
  0 ≤ t.tv_usec ∧ t.tv_usec < 1000000

instance (t : Timeval) : Decidable t.valid := by
  unfold Timeval.valid; infer_instance

/-!  ## The clock accessor (`fio_gettime`)  -/

/-- `enum fio_cs`: the three clock sources of `gettime.c`. -/
inductive ClockSource
  | CS_GTOD
  | CS_CGETTIME
  | CS_CPUCLOCK
deriving DecidableEq, Repr

/-- Outcome of a time syscall: its return value distinguishes success
(the sampled value) from failure (`< 0`). -/
inductive SyscallResult (α : Type)
  | ok : α → SyscallResult α
  | fail
deriving DecidableEq, Repr

/-- The module-level mutable state of `gettime.c`:
`last_cycles`, `last_tv`, `last_tv_valid`. -/
structure ClockState where
  last_cycles : Nat
  last_tv : Timeval
  last_tv_valid : Bool
deriving DecidableEq, Repr

/-- Everything one `fio_gettime` call reads from its environment: the
externally supplied fixed time `fio_tv`, the configured `fio_clock_source`,
the outcomes the syscalls would produce on this call, the raw
`get_cpu_clock()` reading, the calibrated `cycles_per_usec` constant, and the
contents `buf` that `*tp` holds before the call (returned unchanged on paths
that never write `*tp`). -/
structure GettimeEnv where
  fio_tv : Option Timeval
  clock_source : ClockSource
  gtod : SyscallResult Timeval
  cget : SyscallResult Timespec
  cpu_clock : Nat
  cycles_per_usec : Nat
  buf : Timeval
deriving DecidableEq, Repr

/-- The `CS_CPUCLOCK` branch of `fio_gettime`: clamp the raw reading `t`
against `last_cycles`, divide by `cycles_per_usec`, split into
seconds/microseconds.  Returns the candidate timestamp and the new
`last_cycles`. -/
def cpuclock_candidate (cpu_clock last_cycles cycles_per_usec : Nat) :
    Timeval × Nat :=
  (⟨(((if cpu_clock < last_cycles then last_cycles else cpu_clock) /
        cycles_per_usec) / 1000000 : Nat),
    (((if cpu_clock < last_cycles then last_cycles else cpu_clock) /
        cycles_per_usec) % 1000000 : Nat)⟩,
   if cpu_clock < last_cycles then last_cycles else cpu_clock)

/-- The `switch (fio_clock_source)` of `fio_gettime`: the candidate timestamp
and new `last_cycles`, or `none` when the call aborts (`assert(0)`).
`gettimeofday`'s return value is ignored by the source, so on failure the
branch falls through with `*tp` unwritten. -/
def clock_dispatch (env : GettimeEnv) (st : ClockState) :
    Option (Timeval × Nat) :=
  match env.clock_source with
  | .CS_GTOD =>
      match env.gtod with
      | .ok tv => some (tv, st.last_cycles)
      | .fail => some (env.buf, st.last_cycles)
  | .CS_CGETTIME =>
      match env.cget with
      | .ok ts => some (⟨ts.tv_sec, ts.tv_nsec / 1000⟩, st.last_cycles)
      | .fail => none
  | .CS_CPUCLOCK =>
      some (cpuclock_candidate env.cpu_clock st.last_cycles env.cycles_per_usec)

/-- The backward-drift fixup at the end of `fio_gettime`: when the last
returned timestamp is valid, clamp the candidate's seconds field against it,
or — only when the seconds agree — clamp the microseconds field. -/
def drift_fixup (last : Timeval) (valid : Bool) (tp : Timeval) : Timeval :=
  if valid then
    if tp.tv_sec < last.tv_sec then { tp with tv_sec := last.tv_sec }
    else if last.tv_sec = tp.tv_sec ∧ tp.tv_usec < last.tv_usec then
      { tp with tv_usec := last.tv_usec }
    else tp
  else tp

/-- `fio_gettime` from `gettime.c` as a state transformer: `none` models the
aborting `assert(0)` path, otherwise the returned timestamp and the new
module state. -/
def fio_gettime (env : GettimeEnv) (st : ClockState) :
    Option (Timeval × ClockState) :=
  match env.fio_tv with
  | some tv => some (tv, st)
  | none =>
      match clock_dispatch env st with
      | none => none
      | some (tp, lc) =>
          let tp' := drift_fixup st.last_tv st.last_tv_valid tp
          some (tp', ⟨lc, tp', true⟩)

/-!  ## The cycle calibrator (`get_cycles_per_usec`, `calibrate_cpu_clock`)  -/

/-- The busy-poll loop of `get_cycles_per_usec`: each element of `polls` is
one `gettimeofday` sample paired with the `get_cpu_clock()` value that would
be read were the loop to break there; the loop breaks at the first sample at
least 10 microseconds after `s`. -/
def cycles_poll (s : Timeval) : List (Timeval × Nat) → Option Nat
  | [] => none
  | (e, c) :: rest => if 10 ≤ utime_since s e then some c else cycles_poll s rest

/-- `get_cycles_per_usec` from `gettime.c`: busy-poll the wall clock until at
least 10 microseconds have elapsed since `s`, then return `c_e - c_s`.
`none` models a trace on which the loop never terminates. -/
def get_cycles_per_usec (s : Timeval) (c_s : Nat)
    (polls : List (Timeval × Nat)) : Option Nat :=
  match cycles_poll s polls with
  | some c_e => some (c_e - c_s)
  | none => none

/-- One iteration of the statistics loop of `calibrate_cpu_clock` over the
accumulator `(mean, S, i)`:
`delta = cycles[i] - mean; if (delta) { mean += delta / (i + 1.0);
S += delta * (cycles[i] - mean); }`.  The `double` arithmetic is modelled
exactly over `ℚ`. -/
def calib_step : ℚ × ℚ × ℕ → ℚ → ℚ × ℚ × ℕ
  | (mean, S, i), x =>
    if x - mean = 0 then (mean, S, i + 1)
    else
      (mean + (x - mean) / ((i : ℚ) + 1),
       S + (x - mean) * (x - (mean + (x - mean) / ((i : ℚ) + 1))),
       i + 1)

/-- The statistics loop of `calibrate_cpu_clock`, started from
`S = delta = mean = 0.0` and `i = 0`. -/
def calib_stats (xs : List ℚ) : ℚ × ℚ × ℕ :=
  xs.foldl calib_step (0, 0, 0)

/-- The radicand of `S = sqrt(S / (10 - 1.0))` in `calibrate_cpu_clock`: the
accumulated squared deviation divided by `10 - 1`. -/
def calib_var (xs : List ℚ) : ℚ :=
  (calib_stats xs).2.1 / (10 - 1 : ℚ)

/-- The population-style variance the specification describes: the
accumulated squared deviation divided by the number of samples, 10.  Stated
from the spec's words, for comparison with `calib_var`. -/
def population_var_spec (xs : List ℚ) : ℚ :=
  (calib_stats xs).2.1 / 10

/-- The selection loop of `calibrate_cpu_clock` over the accumulator
`(samples, avg)`: skip a candidate whenever
`(fmax(this, mean) - fmin(this, mean)) > S`, otherwise count it and add it
into `avg`. -/
def calib_select (cycles : List Nat) (mean S : ℚ) : Nat × Nat :=
  cycles.foldl
    (fun (acc : Nat × Nat) (c : Nat) =>
      if max (c : ℚ) mean - min (c : ℚ) mean > S then acc
      else (acc.1 + 1, acc.2 + c))
    ((0, 0) : Nat × Nat)

/-- The final calibration constant of `calibrate_cpu_clock`:
`avg /= (samples * 10)` after the selection loop (integer division of the
retained sum; the trailing `/ 10` converts cycles-per-10-microseconds into
cycles-per-microsecond). -/
def calib_result (cycles : List Nat) (mean S : ℚ) : Nat :=
  (calib_select cycles mean S).2 / ((calib_select cycles mean S).1 * 10)

/-- The candidates the specification says are retained: exactly those whose
absolute distance from the mean does not exceed `S`.  Stated from the spec's
words, for comparison with `calib_select`. -/
def retained_spec (cycles : List Nat) (mean S : ℚ) : List Nat :=
  cycles.filter fun c => decide (|(c : ℚ) - mean| ≤ S)

/-- The arithmetic mean of the retained candidates, as the specification
describes the final calibration constant.  Stated from the spec's words. -/
def retained_mean_spec (cycles : List Nat) (mean S : ℚ) : ℚ :=
  ((retained_spec cycles mean S).map (fun c => (c : ℚ))).sum /
    ((retained_spec cycles mean S).length : ℚ)

/-!  ## The access-pattern generator (`zipf_next`, `pareto_next`)

The repository carries only the interface `lib/zipf.h`; the implementations
of `zipf_next` / `pareto_next` (fio's `lib/zipf.c`) are not under `src/`, so
the generators are modelled from the specification's words.  -/

/-- Modelled from the spec: the Zipfian normalisation constant, obtained "by
summing `1/i^theta` for `i` from 1 to `n`" (`lib/zipf.c` is missing from
`src/`). -/
noncomputable def zeta_n (n : Nat) (theta : ℝ) : ℝ :=
  ∑ i ∈ Finset.Icc 1 n, 1 / (i : ℝ) ^ theta

/-- Modelled from the spec: the ranks whose cumulative Zipf probability
(under the precomputed normalisation constants) reaches the drawn uniform
variate `u` (`lib/zipf.c` is missing from `src/`). -/
noncomputable def zipf_keep (n : Nat) (theta u : ℝ) : Finset Nat :=
  @Finset.filter Nat (fun k => u ≤ zeta_n k theta / zeta_n n theta)
    (Classical.decPred _) (Finset.Icc 1 n)

/-- Modelled from the spec: `zipf_next` "draws a uniform variate" and "maps
it through the inverse of the Zipfian cumulative distribution using the
precomputed constants" — the least rank in `1..n` whose cumulative
probability reaches `u`, and the last rank when none does (`lib/zipf.c` is
missing from `src/`). -/
noncomputable def zipf_rank (n : Nat) (theta u : ℝ) : Nat :=
  if h : (zipf_keep n theta u).Nonempty then (zipf_keep n theta u).min' h
  else n

/-- Modelled from the spec: the offset produced by `zipf_next` is the
selected rank shifted onto `[0, n)` ("generating Zipf-distributed integers
in `[0, n)`"; `lib/zipf.c` is missing from `src/`). -/
noncomputable def zipf_next (n : Nat) (theta u : ℝ) : Nat :=
  zipf_rank n theta u - 1

/-- Modelled from the spec: `pareto_next` "draws a uniform variate `u` and
computes `offset = n * u^(exponent)`, truncated into `[0, n)`"
(`lib/zipf.c` is missing from `src/`). -/
noncomputable def pareto_next (n : Nat) (pareto_pow u : ℝ) : Nat :=
  (⌊(n : ℝ) * u ^ pareto_pow⌋).toNat

end Fio

namespace Fio

/-- Claim C2: both elapsed-time functions are non-negative, and return zero exactly
when the nominal elapsed value is negative. -/
theorem utime_mtime_nonneg (s e : Timeval) (hs : s.valid) (he : e.valid) :
    0 ≤ utime_since s e ∧ 0 ≤ mtime_since s e ∧
      ((e.tv_sec - s.tv_sec < 0 ∨
        (e.tv_sec - s.tv_sec = 0 ∧ e.tv_usec - s.tv_usec < 0)) →
        utime_since s e = 0 ∧ mtime_since s e = 0) := by
  obtain ⟨hs0, hs1⟩ := hs
  obtain ⟨he0, he1⟩ := he
  unfold utime_since mtime_since since_parts
  split_ifs <;> simp_all <;> omega

/-- Witness for `utime_mtime_nonneg`. -/
theorem utime_mtime_nonneg_witness :
    (Timeval.mk 5 300).valid ∧ (Timeval.mk 4 700).valid ∧
      0 ≤ utime_since ⟨5, 300⟩ ⟨4, 700⟩ := by
  refine ⟨by decide, by decide, ?_⟩
  exact (utime_mtime_nonneg ⟨5, 300⟩ ⟨4, 700⟩ (by decide) (by decide)).1

/-- Claim C9: on valid timevals, the millisecond computation is the exact integer
coarsening of the microsecond one. -/
theorem mtime_eq_utime_div_1000 (s e : Timeval) (hs : s.valid) (he : e.valid) :
    mtime_since s e = utime_since s e / 1000 := by
  obtain ⟨hs0, hs1⟩ := hs
  obtain ⟨he0, he1⟩ := he
  unfold utime_since mtime_since since_parts
  split_ifs <;> simp_all <;> omega

/-- Witness for `mtime_eq_utime_div_1000`. -/
theorem mtime_eq_utime_div_1000_witness :
    (Timeval.mk 1 500000).valid ∧ (Timeval.mk 3 400000).valid ∧
      mtime_since ⟨1, 500000⟩ ⟨3, 400000⟩ =
        utime_since ⟨1, 500000⟩ ⟨3, 400000⟩ / 1000 := by
  refine ⟨by decide, by decide, ?_⟩
  exact mtime_eq_utime_div_1000 ⟨1, 500000⟩ ⟨3, 400000⟩ (by decide) (by decide)

/-- Claim C1 (refuted): with the last returned timestamp `(5, 500)` recorded, a
candidate `(4, 100)` — earlier by whole seconds — is returned as `(5, 100)`:
the fixup rewrites only the seconds field, so the returned value is neither
the last returned value nor `≥` it (same second, 100 < 500 microseconds). -/
theorem gettime_backward_drift_escapes_clamp :
    fio_gettime
        ⟨none, .CS_GTOD, .ok ⟨4, 100⟩, .fail, 0, 0, ⟨0, 0⟩⟩
        ⟨0, ⟨5, 500⟩, true⟩ =
      some (⟨5, 100⟩, ⟨0, ⟨5, 100⟩, true⟩) ∧
    Timeval.mk 5 100 ≠ Timeval.mk 5 500 ∧
    (Timeval.mk 5 100).tv_sec = (Timeval.mk 5 500).tv_sec ∧
    (Timeval.mk 5 100).tv_usec < (Timeval.mk 5 500).tv_usec := by
  refine ⟨by decide, by decide, by decide, by decide⟩

/-- Claim C3: in the `CS_CPUCLOCK` source, the stored cycle value becomes the
maximum of the raw reading and the previous value (so it never decreases),
and whenever the raw reading regresses the candidate timestamp handed to the
final fixup is computed from the previous (clamped) cycle value divided by
the calibrated `cycles_per_usec` constant. -/
theorem cpuclock_regression_clamped (env : GettimeEnv) (st : ClockState)
    (hft : env.fio_tv = none) (hcs : env.clock_source = .CS_CPUCLOCK) :
    ∃ tp st', fio_gettime env st = some (tp, st') ∧
      st'.last_cycles = max env.cpu_clock st.last_cycles ∧
      st.last_cycles ≤ st'.last_cycles ∧
      (env.cpu_clock < st.last_cycles →
        st'.last_cycles = st.last_cycles ∧
        tp = drift_fixup st.last_tv st.last_tv_valid
          ⟨((st.last_cycles / env.cycles_per_usec) / 1000000 : Nat),
           ((st.last_cycles / env.cycles_per_usec) % 1000000 : Nat)⟩) := by
  unfold fio_gettime clock_dispatch cpuclock_candidate
  rw [hft, hcs]
  by_cases hlt : env.cpu_clock < st.last_cycles
  · refine ⟨_, _, rfl, ?_, ?_, fun _ => ⟨?_, ?_⟩⟩
    · dsimp only
      rw [if_pos hlt]
      omega
    · dsimp only
      rw [if_pos hlt]
    · dsimp only
      rw [if_pos hlt]
    · dsimp only
      rw [if_pos hlt]
  · refine ⟨_, _, rfl, ?_, ?_, fun h => absurd h hlt⟩
    · dsimp only
      rw [if_neg hlt]
      omega
    · dsimp only
      rw [if_neg hlt]
      omega

/-- Witness for `cpuclock_regression_clamped`. -/
theorem cpuclock_regression_clamped_witness :
    ∃ tp st',
      fio_gettime ⟨none, .CS_CPUCLOCK, .fail, .fail, 50, 3, ⟨0, 0⟩⟩
          ⟨100, ⟨0, 0⟩, false⟩ = some (tp, st') ∧
      st'.last_cycles = max 50 100 ∧
      (100 : Nat) ≤ st'.last_cycles ∧
      ((50 : Nat) < 100 →
        st'.last_cycles = 100 ∧
        tp = drift_fixup ⟨0, 0⟩ false
          ⟨(((100 : Nat) / 3) / 1000000 : Nat), (((100 : Nat) / 3) % 1000000 : Nat)⟩) :=
  cpuclock_regression_clamped ⟨none, .CS_CPUCLOCK, .fail, .fail, 50, 3, ⟨0, 0⟩⟩
    ⟨100, ⟨0, 0⟩, false⟩ rfl rfl

/-- Claim C7 (refuted): in the wall-clock `gettimeofday` source the syscall's
return value is never examined — on failure the call still returns a
timestamp (the unwritten buffer contents) instead of aborting. -/
theorem gtod_failure_not_fatal :
    fio_gettime ⟨none, .CS_GTOD, .fail, .fail, 0, 0, ⟨7, 7⟩⟩
        ⟨0, ⟨0, 0⟩, false⟩ =
      some (⟨7, 7⟩, ⟨0, ⟨7, 7⟩, true⟩) := by decide

/-- Claim C7 (amended): only the `clock_gettime`-backed source aborts when its
syscall fails; the `gettimeofday`-backed source returns a timestamp no matter
what the syscall outcome is. -/
theorem syscall_failure_fatal_only_for_cgettime :
    (∀ env st, env.fio_tv = none → env.clock_source = .CS_CGETTIME →
        env.cget = .fail → fio_gettime env st = none) ∧
    (∀ env st, env.fio_tv = none → env.clock_source = .CS_GTOD →
        (fio_gettime env st).isSome) := by
  constructor
  · intro env st hft hcs hcg
    unfold fio_gettime clock_dispatch
    rw [hft, hcs, hcg]
  · intro env st hft hcs
    unfold fio_gettime clock_dispatch
    rw [hft, hcs]
    cases env.gtod <;> simp

/-- Witness for `syscall_failure_fatal_only_for_cgettime`. -/
theorem syscall_failure_fatal_only_for_cgettime_witness :
    fio_gettime ⟨none, .CS_CGETTIME, .fail, .fail, 0, 0, ⟨0, 0⟩⟩
        ⟨0, ⟨0, 0⟩, false⟩ = none ∧
      (fio_gettime ⟨none, .CS_GTOD, .fail, .fail, 0, 0, ⟨3, 4⟩⟩
        ⟨0, ⟨0, 0⟩, false⟩).isSome :=
  ⟨syscall_failure_fatal_only_for_cgettime.1 _ _ rfl rfl rfl,
   syscall_failure_fatal_only_for_cgettime.2 _ _ rfl rfl⟩

/-- Claim C10: when `fio_tv` is non-null, `fio_gettime` returns exactly `*fio_tv`
and the whole module state is left untouched — in particular the returned
value is not run through the drift fixup and `last_tv`/`last_tv_valid` keep
their previous contents. -/
theorem fixed_tv_passthrough (env : GettimeEnv) (st : ClockState)
    (tv : Timeval) (h : env.fio_tv = some tv) :
    fio_gettime env st = some (tv, st) := by
  unfold fio_gettime
  rw [h]

/-- Witness for `fixed_tv_passthrough`: the fixed time `(1, 2)` is returned
as-is even though the recorded last returned timestamp `(9, 9)` is later, and
the state is unchanged. -/
theorem fixed_tv_passthrough_witness :
    fio_gettime ⟨some ⟨1, 2⟩, .CS_GTOD, .fail, .fail, 0, 0, ⟨0, 0⟩⟩
        ⟨0, ⟨9, 9⟩, true⟩ = some (⟨1, 2⟩, ⟨0, ⟨9, 9⟩, true⟩) :=
  fixed_tv_passthrough _ _ _ rfl

/-- The busy-poll loop returns the cycle reading of the first poll at least
10 microseconds after `s`. -/
lemma cycles_poll_eq_find (s : Timeval) (polls : List (Timeval × Nat)) :
    cycles_poll s polls =
      (polls.find? fun p => decide (10 ≤ utime_since s p.1)).map Prod.snd := by
  induction polls with
  | nil => rfl
  | cons p rest ih =>
    obtain ⟨e, c⟩ := p
    by_cases h : 10 ≤ utime_since s e
    · simp [cycles_poll, List.find?_cons, h]
    · simp [cycles_poll, List.find?_cons, h, ih]

/-- Claim C4 (refuted): with the round started at `(0, 0)` and cycle count 0,
a first poll at `(0, 20)` (20 microseconds elapsed, so the loop breaks) with
cycle count 60 yields the candidate 60 — the elapsed cycle count — not the
elapsed-cycles / elapsed-microseconds ratio 60 / 20 = 3. -/
theorem cycles_candidate_not_ratio :
    get_cycles_per_usec ⟨0, 0⟩ 0 [(⟨0, 20⟩, 60)] = some 60 ∧
    utime_since ⟨0, 0⟩ ⟨0, 20⟩ = 20 ∧
    (60 : Nat) ≠ 60 / 20 := by
  refine ⟨by decide, by decide, by decide⟩

/-- Claim C4 (amended): each candidate equals the raw elapsed cycle count
`c_e - c_s`, where `c_e` is the cycle reading taken at the first wall-clock
poll at least 10 microseconds after the start; the candidate is not divided
by the elapsed microseconds here (the calibrator later divides the averaged
candidates by the 10-microsecond threshold). -/
theorem cycles_candidate_eq_elapsed_cycles (s : Timeval) (c_s : Nat)
    (polls : List (Timeval × Nat)) :
    get_cycles_per_usec s c_s polls =
      ((polls.find? fun p => decide (10 ≤ utime_since s p.1)).map
        fun p => p.2 - c_s) := by
  unfold get_cycles_per_usec
  rw [cycles_poll_eq_find]
  cases polls.find? fun p => decide (10 ≤ utime_since s p.1) <;> simp

/-- Claim C5 (refuted): on the ten candidates below the loop computes the
running mean 20 and accumulated squared deviation 36, and the radicand of the
final `sqrt` is `36 / (10 - 1) = 4` — which differs from the population-style
`36 / 10` the claim describes. -/
theorem calib_var_not_population :
    (calib_stats [20, 20, 20, 20, 20, 20, 23, 23, 17, 17]).1 = 20 ∧
    (calib_stats [20, 20, 20, 20, 20, 20, 23, 23, 17, 17]).2.1 = 36 ∧
    calib_var [20, 20, 20, 20, 20, 20, 23, 23, 17, 17] = 4 ∧
    calib_var [20, 20, 20, 20, 20, 20, 23, 23, 17, 17] ≠
      population_var_spec [20, 20, 20, 20, 20, 20, 23, 23, 17, 17] := by
  norm_num [calib_var, population_var_spec, calib_stats, calib_step,
    List.foldl]

/-- The conditional update of `calib_step` coincides with the unconditional
Welford update (the skipped `delta == 0` case changes nothing). -/
lemma calib_step_proj (p : ℚ × ℚ × ℕ) (x : ℚ) :
    calib_step p x =
      (p.1 + (x - p.1) / ((p.2.2 : ℚ) + 1),
       p.2.1 + (x - p.1) * (x - (p.1 + (x - p.1) / ((p.2.2 : ℚ) + 1))),
       p.2.2 + 1) := by
  obtain ⟨m, S, i⟩ := p
  unfold calib_step
  dsimp only
  split
  · rename_i h
    have hx : x = m := by linarith [h]
    subst hx
    norm_num
  · rfl

/-- Invariant of the statistics loop: after any prefix, the accumulator holds
the arithmetic mean, the exact accumulated squared deviation (in the
closed form `Σ x² - (Σ x)² / n`), and the count. -/
lemma calib_stats_invariant (xs : List ℚ) :
    (calib_stats xs).2.2 = xs.length ∧
    (calib_stats xs).1 = xs.sum / (xs.length : ℚ) ∧
    (calib_stats xs).2.1 =
      (xs.map fun x => x ^ 2).sum - xs.sum ^ 2 / (xs.length : ℚ) := by
  induction xs using List.reverseRecOn with
  | nil => simp [calib_stats]
  | append_singleton t x ih =>
    obtain ⟨hk, hm, hS⟩ := ih
    have hfold : calib_stats (t ++ [x]) = calib_step (calib_stats t) x := by
      unfold calib_stats
      rw [List.foldl_append]
      rfl
    rw [hfold, calib_step_proj]
    by_cases hn : t.length = 0
    · have ht : t = [] := List.eq_nil_of_length_eq_zero hn
      subst ht
      simp [calib_stats]
    · have hn' : (t.length : ℚ) ≠ 0 := Nat.cast_ne_zero.mpr hn
      have hn1 : ((t.length : ℚ) + 1) ≠ 0 := by positivity
      refine ⟨by simp [hk], ?_, ?_⟩
      · rw [hm, hk]
        simp only [List.sum_append, List.length_append, List.sum_cons,
          List.sum_nil, List.length_cons, List.length_nil]
        push_cast
        field_simp
        ring
      · rw [hS, hm, hk]
        simp only [List.sum_append, List.length_append, List.map_append,
          List.map_cons, List.map_nil, List.sum_cons, List.sum_nil,
          List.length_cons, List.length_nil]
        push_cast
        field_simp
        ring

/-- Sum of squared deviations in expanded form. -/
lemma sum_sq_dev (xs : List ℚ) (μ : ℚ) :
    (xs.map fun x => (x - μ) ^ 2).sum =
      (xs.map fun x => x ^ 2).sum - 2 * μ * xs.sum +
        (xs.length : ℚ) * μ ^ 2 := by
  induction xs with
  | nil => simp
  | cons a t ih =>
    simp only [List.map_cons, List.sum_cons, List.length_cons, ih]
    push_cast
    ring

/-- Claim C5 (amended): over the ten candidates the loop computes the running
arithmetic mean, and the radicand of the final `sqrt` is the sample-style
variance — the accumulated squared deviation divided by `10 - 1 = 9`, not by
10 — where the incremental (Welford) accumulation agrees exactly with the sum
of squared deviations from the mean. -/
theorem calib_stats_mean_and_sample_var (xs : List ℚ) (h : xs.length = 10) :
    (calib_stats xs).1 = xs.sum / 10 ∧
    calib_var xs = ((xs.map fun x => (x - xs.sum / 10) ^ 2).sum) / 9 := by
  obtain ⟨hk, hm, hS⟩ := calib_stats_invariant xs
  rw [h] at hm hS
  constructor
  · rw [hm]
    norm_num
  · unfold calib_var
    rw [hS, sum_sq_dev xs (xs.sum / 10), h]
    push_cast
    ring

/-- Witness for `calib_stats_mean_and_sample_var`. -/
theorem calib_stats_mean_and_sample_var_witness :
    (calib_stats [0, 0, 0, 0, 0, 0, 0, 0, 0, 10]).1 =
      ([0, 0, 0, 0, 0, 0, 0, 0, 0, 10] : List ℚ).sum / 10 ∧
    calib_var [0, 0, 0, 0, 0, 0, 0, 0, 0, 10] =
      ((([0, 0, 0, 0, 0, 0, 0, 0, 0, 10] : List ℚ).map
        fun x => (x - ([0, 0, 0, 0, 0, 0, 0, 0, 0, 10] : List ℚ).sum / 10) ^ 2).sum) / 9 :=
  calib_stats_mean_and_sample_var [0, 0, 0, 0, 0, 0, 0, 0, 0, 10] rfl

/-- Claim C6 (refuted): on the candidates below the mean is 20 and the
standard deviation is exactly 2 (since `2² = calib_var`); the retained
candidates are the six 20s, whose arithmetic mean is 20, yet the final
constant is `120 / (6 * 10) = 2 ≠ 20`: the code divides the retained sum by
ten times the retained count, not by the retained count. -/
theorem calib_result_not_retained_mean :
    (calib_stats ([20, 20, 20, 20, 20, 20, 23, 23, 17, 17].map Nat.cast)).1
        = 20 ∧
    (0 : ℚ) ≤ 2 ∧
    (2 : ℚ) ^ 2 =
      calib_var ([20, 20, 20, 20, 20, 20, 23, 23, 17, 17].map Nat.cast) ∧
    retained_spec [20, 20, 20, 20, 20, 20, 23, 23, 17, 17] 20 2 =
      [20, 20, 20, 20, 20, 20] ∧
    retained_mean_spec [20, 20, 20, 20, 20, 20, 23, 23, 17, 17] 20 2 = 20 ∧
    calib_result [20, 20, 20, 20, 20, 20, 23, 23, 17, 17] 20 2 = 2 ∧
    ((2 : ℚ) ≠ 20) := by
  norm_num [calib_var, calib_stats, calib_step, List.foldl, retained_spec,
    retained_mean_spec, calib_result, calib_select, List.filter, abs_le]

/-- The selection fold counts and sums exactly the candidates the filter
keeps. -/
lemma calib_select_eq_filter (cycles : List Nat) (mean S : ℚ) (k a : Nat) :
    cycles.foldl
        (fun (acc : Nat × Nat) (c : Nat) =>
          if max (c : ℚ) mean - min (c : ℚ) mean > S then acc
          else (acc.1 + 1, acc.2 + c)) ((k, a) : Nat × Nat) =
      (k + (retained_spec cycles mean S).length,
       a + (retained_spec cycles mean S).sum) := by
  induction cycles generalizing k a with
  | nil => simp [retained_spec]
  | cons c t ih =>
    by_cases h : |(c : ℚ) - mean| ≤ S
    · have h2 : ¬max (c : ℚ) mean - min (c : ℚ) mean > S := by
        rw [max_sub_min_eq_abs']
        exact not_lt.mpr h
      simp only [retained_spec, List.filter_cons, List.foldl_cons,
        decide_eq_true_eq, h, if_true, List.length_cons, List.sum_cons] at *
      rw [if_neg h2, ih]
      exact Prod.ext (by omega) (by omega)
    · have h2 : max (c : ℚ) mean - min (c : ℚ) mean > S := by
        rw [max_sub_min_eq_abs']
        exact not_le.mp h
      simp only [retained_spec, List.filter_cons, List.foldl_cons,
        decide_eq_true_eq, h, if_false] at *
      rw [if_pos h2, ih]

/-- Claim C6 (amended): the final calibration constant is the integer
quotient of the sum of exactly those candidates whose absolute distance from
the mean does not exceed one standard deviation by ten times their number
(the mean of the retained candidates further divided by the 10-microsecond
threshold); candidates strictly farther than one standard deviation
contribute nothing. -/
theorem calib_result_eq_retained (cycles : List Nat) (mean S : ℚ) :
    calib_result cycles mean S =
      (retained_spec cycles mean S).sum /
        (10 * (retained_spec cycles mean S).length) := by
  unfold calib_result calib_select
  rw [calib_select_eq_filter]
  simp [Nat.mul_comm]

/-- Claim C8: for any range `n ≥ 1`, a uniform variate `u ∈ [0, 1)` and a
positive derived exponent, both generators return an offset in `[0, n)`, and
for `n = 1` they return 0. -/
theorem zipf_pareto_next_in_range (n : Nat) (theta pareto_pow u : ℝ)
    (hn : 1 ≤ n) (hu0 : 0 ≤ u) (hu1 : u < 1) (hp : 0 < pareto_pow) :
    zipf_next n theta u < n ∧ pareto_next n pareto_pow u < n ∧
      (n = 1 → zipf_next n theta u = 0 ∧ pareto_next n pareto_pow u = 0) := by
  have hzr : 1 ≤ zipf_rank n theta u ∧ zipf_rank n theta u ≤ n := by
    unfold zipf_rank
    split
    · rename_i h
      have hmem := Finset.min'_mem (zipf_keep n theta u) h
      unfold zipf_keep at hmem
      rw [Finset.mem_filter] at hmem
      exact Finset.mem_Icc.mp hmem.1
    · exact ⟨hn, le_refl n⟩
  have hzip : zipf_next n theta u < n := by
    unfold zipf_next
    omega
  have hpar : pareto_next n pareto_pow u < n := by
    unfold pareto_next
    have h1 : u ^ pareto_pow < 1 := Real.rpow_lt_one hu0 hu1 hp
    have h0 : (0 : ℝ) ≤ u ^ pareto_pow := Real.rpow_nonneg hu0 _
    have hn0 : (0 : ℝ) < (n : ℝ) := by
      exact_mod_cast Nat.lt_of_lt_of_le Nat.zero_lt_one hn
    have hfl : ⌊(n : ℝ) * u ^ pareto_pow⌋ < (n : ℤ) := by
      rw [Int.floor_lt]
      push_cast
      nlinarith
    omega
  exact ⟨hzip, hpar, fun h1 => by omega⟩

/-- Witness for `zipf_pareto_next_in_range`. -/
theorem zipf_pareto_next_in_range_witness :
    zipf_next 2 1 (1 / 2) < 2 ∧ pareto_next 2 1 (1 / 2) < 2 ∧
      ((2 : Nat) = 1 → zipf_next 2 1 (1 / 2) = 0 ∧
        pareto_next 2 1 (1 / 2) = 0) :=
  zipf_pareto_next_in_range 2 1 1 (1 / 2) (by norm_num) (by norm_num)
    (by norm_num) (by norm_num)

end Fio
